import Mathlib

/-!
Shallow embedding of the fabric-yarn-merged-descs update pipeline
(src/fabric.py, src/jardescs.py, src/combined.py, src/index.py,
src/update.py) together with theorems about its reconciliation logic.

Python dictionaries are embedded as association lists in insertion order
(`alistLookup` / `alistInsert` mirror `d[k]` reads and writes: a write to an
existing key keeps its position, a write to a new key appends). `datetime`
values are abstracted to `Int` (only equality and ordering of timestamps are
used by the code). Network fetches and the external merge tool are opaque
fallible effects supplied by an environment; every invocation of an effect is
recorded in an event trace. Exceptions are embedded as `Except Err`.
-/

/-- Failure taxonomy of the pipeline: non-success network responses
(`requests` raise_for_status), failed token resolution in the description
source, and a non-zero exit of the external merge tool. -/
inductive Err where
  | remoteFetch
  | notFound
  | externalTool
deriving DecidableEq, Repr

/-- One upstream yarn build descriptor, from src/fabric.py `FabricYarn`.
Its Python `__eq__` compares exactly these four fields, so structural
equality is faithful. -/
structure FabricYarn where
  version_file_id : String
  separator : String
  build : Int
  fabric_name : String
deriving DecidableEq, Repr

/-- One per-artifact description entry, from src/jardescs.py
`JarDescsMapping`. pydantic compares models field by field, so structural
equality is faithful. -/
structure JarDescsMapping where
  version_id : String
  version_file_id : String
  version_release_time : Int
  jar_key : String
  jar_sha1_meta : String
deriving DecidableEq, Repr

/-- src/combined.py `CombinedJarDesc` subclasses `JarDescsMapping` adding no
fields, only the `out_path` property and the merge invocation. -/
abbrev CombinedJarDesc := JarDescsMapping

/-- src/combined.py `CombinedJarDesc.from_jar_descs_mapping`: `parse_obj` of a
model with identical fields, i.e. a field-for-field copy. -/
def CombinedJarDesc.from_jar_descs_mapping (jar_descs_mapping : JarDescsMapping) :
    CombinedJarDesc :=
  jar_descs_mapping

/-- src/combined.py `CombinedJarDesc.out_path`, taken relative to the
repository directory `DIR` (this relative form is what src/index.py uses):
`mappings/{version_id}-{jar_key}.json`. -/
def CombinedJarDesc.out_path (j : CombinedJarDesc) : String :=
  "mappings/" ++ j.version_id ++ "-" ++ j.jar_key ++ ".json"

/-- src/combined.py `CombinedYarn`: a `FabricYarn` extended with the version
context. Its Python `__eq__` compares exactly these six fields. -/
structure CombinedYarn where
  version_id : String
  version_file_id : String
  version_release_time : Int
  separator : String
  build : Int
  fabric_name : String
deriving DecidableEq, Repr

/-- src/combined.py `CombinedYarn.from_fabric_yarn`. -/
def CombinedYarn.from_fabric_yarn (fabric_yarn : FabricYarn) (version_id : String)
    (version_release_time : Int) : CombinedYarn :=
  { version_id := version_id
    version_file_id := fabric_yarn.version_file_id
    version_release_time := version_release_time
    separator := fabric_yarn.separator
    build := fabric_yarn.build
    fabric_name := fabric_yarn.fabric_name }

/-- The candidate yarn computed for an existing version in
`CombinedCombined.update` (src/combined.py line 138). -/
def candidateYarn (version_id : String) (version_release_time : Int)
    (fabric_yarn : FabricYarn) : CombinedYarn :=
  CombinedYarn.from_fabric_yarn fabric_yarn version_id version_release_time

/-- Observable effects of one reconcile pass: a full yarn-artifact download
(`CombinedYarn.download` reaching the full `GET`) and one invocation of the
external merge tool (`CombinedJarDesc.mappingio`). -/
inductive Event where
  | download (yarn : CombinedYarn)
  | mappingio (jar : CombinedJarDesc) (yarn : CombinedYarn)
deriving DecidableEq, Repr

/-- Effect environment for a reconcile pass: the outcome of each yarn
artifact download and of each merge-tool invocation. -/
structure Env where
  download : CombinedYarn → Except Err Unit
  mappingio : CombinedJarDesc → CombinedYarn → Except Err Unit

/-! Association lists standing for Python dicts. -/

/-- Dict read: first binding of the key (keys are unique in an actual dict). -/
def alistLookup {α β : Type} [DecidableEq α] : List (α × β) → α → Option β
  | [], _ => none
  | (k1, v1) :: rest, k => if k1 = k then some v1 else alistLookup rest k

/-- Dict write `d[k] = v`: replace in place if the key exists, else append. -/
def alistInsert {α β : Type} [DecidableEq α] : List (α × β) → α → β → List (α × β)
  | [], k, v => [(k, v)]
  | (k1, v1) :: rest, k, v =>
    if k1 = k then (k, v) :: rest else (k1, v1) :: alistInsert rest k v

/-! Sorting. The repository's `util.sort_dict` is imported by src/fabric.py
and src/combined.py but util.py itself is not among the source files. -/

/-- Stable insertion of one element by key. -/
def insertByKey {α β : Type} [LinearOrder β] (keyf : α → β) (x : α) :
    List α → List α
  | [] => [x]
  | y :: ys => if keyf x ≤ keyf y then x :: y :: ys else y :: insertByKey keyf x ys

/-- Stable sort by key (insertion sort), matching Python's stable `sorted`. -/
def sortByKey {α β : Type} [LinearOrder β] (keyf : α → β) : List α → List α
  | [] => []
  | x :: xs => insertByKey keyf x (sortByKey keyf xs)

/-- Modelled from the spec: `util.sort_dict` with no key argument (util.py is
not under src/). Per the spec ("If the version's jar map changed, re-sort it
by jar_key for deterministic output") it returns the dictionary stably sorted
by its keys. -/
def sort_dict {β : Type} (l : List (String × β)) : List (String × β) :=
  sortByKey Prod.fst l

/-- Modelled from the spec: `util.sort_dict` with an explicit key function
over the dict items (util.py is not under src/). Per the spec ("re-sort the
entry map by order-list index", "re-sort CombinedRoot.combined by registry
order index") it returns the dictionary stably sorted by the key function. -/
def sort_dict_by {β : Type} (keyf : String × β → Nat) (l : List (String × β)) :
    List (String × β) :=
  sortByKey keyf l

/-! src/fabric.py -/

/-- The registry document, src/fabric.py `Fabric`. -/
structure Fabric where
  timestamp : Int
  yarn : List (String × FabricYarn)
  sorted_version_file_ids : List String
deriving DecidableEq, Repr

/-- One iteration of the feed loop in src/fabric.py `Fabric.update`
(lines 93-106): remember discovery order, then store the fetched entry if
the id is new, or if it differs from the stored entry and its build is
strictly greater. -/
def fabricStep (st : Fabric × Bool) (fabric_yarn : FabricYarn) : Fabric × Bool :=
  let f := st.1
  let ids :=
    if fabric_yarn.version_file_id ∈ f.sorted_version_file_ids then
      f.sorted_version_file_ids
    else f.sorted_version_file_ids ++ [fabric_yarn.version_file_id]
  match alistLookup f.yarn fabric_yarn.version_file_id with
  | none =>
    ({ f with
        sorted_version_file_ids := ids
        yarn := alistInsert f.yarn fabric_yarn.version_file_id fabric_yarn },
      true)
  | some stored =>
    if ¬ fabric_yarn = stored ∧ stored.build < fabric_yarn.build then
      ({ f with
          sorted_version_file_ids := ids
          yarn := alistInsert f.yarn fabric_yarn.version_file_id fabric_yarn },
        true)
    else ({ f with sorted_version_file_ids := ids }, st.2)

/-- src/fabric.py `Fabric.update`, with the already-fetched feed passed in
(the `requests.get` itself is an external effect handled by the pipeline
environment). If anything changed, re-sort the yarn map by order-list
index. -/
def Fabric.update (f : Fabric) (feed : List FabricYarn) : Fabric × Bool :=
  let st := feed.foldl fabricStep (f, false)
  let f1 := st.1
  if st.2 then
    let sortedYarn :=
      sort_dict_by (fun i => List.indexOf i.1 f1.sorted_version_file_ids) f1.yarn
    ({ f1 with yarn := sortedYarn }, true)
  else st

/-! src/jardescs.py -/

/-- The description-source document, src/jardescs.py `JarDescs`. -/
structure JarDescs where
  timestamp : Int
  mappings : List (String × List (String × JarDescsMapping))
deriving DecidableEq, Repr

/-- src/jardescs.py `JarDescs.all`: every mapping, outer dict order then
inner dict order. -/
def JarDescs.all (j : JarDescs) : List JarDescsMapping :=
  (j.mappings.map (fun p => p.2.map Prod.snd)).flatten

/-- The shared search of the three `get_version_*` helpers: the first jar
whose `version_id` or `version_file_id` matches the token. -/
def JarDescs.find_version (j : JarDescs) (version : String) : Option JarDescsMapping :=
  j.all.find? (fun jar => version == jar.version_id || version == jar.version_file_id)

/-- src/jardescs.py `JarDescs.get_version_id`; raises on no match. -/
def JarDescs.get_version_id (j : JarDescs) (version : String) : Except Err String :=
  match j.find_version version with
  | some jar => .ok jar.version_id
  | none => .error .notFound

/-- src/jardescs.py `JarDescs.get_version_release_time`; raises on no match. -/
def JarDescs.get_version_release_time (j : JarDescs) (version : String) :
    Except Err Int :=
  match j.find_version version with
  | some jar => .ok jar.version_release_time
  | none => .error .notFound

/-- src/jardescs.py `JarDescs.get_jars`: resolve the version id, then list the
inner dict's values; raises on no match. -/
def JarDescs.get_jars (j : JarDescs) (version : String) :
    Except Err (List JarDescsMapping) :=
  match j.get_version_id version with
  | .error e => .error e
  | .ok version_id =>
    match alistLookup j.mappings version_id with
    | some inner => .ok (inner.map Prod.snd)
    | none => .error .notFound

/-! src/combined.py -/

/-- One tracked version, src/combined.py `CombinedCombined`. -/
structure CombinedCombined where
  version_id : String
  version_file_id : String
  version_release_time : Int
  yarn : CombinedYarn
  jars : List (String × CombinedJarDesc)
deriving DecidableEq, Repr

/-- The per-mapping loop of src/combined.py `CombinedCombined.update`
(lines 149-160): for each current description entry, store the candidate jar
if missing or different, and invoke the merge tool when the yarn or that jar
is dirty. Returns the jar map, the accumulated dirty flag and the events. -/
def jarsLoop (env : Env) (yarn : CombinedYarn) (yarn_dirty : Bool)
    (jars : List (String × CombinedJarDesc)) (dirty : Bool) :
    List JarDescsMapping →
      Except Err (List (String × CombinedJarDesc) × Bool × List Event)
  | [] => .ok (jars, dirty, [])
  | mapping :: rest =>
    let new_jar := CombinedJarDesc.from_jar_descs_mapping mapping
    let jar_dirty := ¬ alistLookup jars mapping.jar_key = some new_jar
    let jars1 := if jar_dirty then alistInsert jars mapping.jar_key new_jar else jars
    let dirty1 := dirty || decide jar_dirty
    if yarn_dirty || decide jar_dirty then
      match env.mappingio new_jar yarn with
      | .error e => .error e
      | .ok _ =>
        match jarsLoop env yarn yarn_dirty jars1 dirty1 rest with
        | .error e => .error e
        | .ok (j2, d2, ev) => .ok (j2, d2, Event.mappingio new_jar yarn :: ev)
    else jarsLoop env yarn yarn_dirty jars1 dirty1 rest

/-- src/combined.py `CombinedCombined.update` (lines 134-166): compute the
candidate yarn; if it differs from the stored one, replace it and download
the new artifact; then run the per-mapping loop; if anything changed,
re-sort the jar map by jar_key. -/
def CombinedCombined.update (c : CombinedCombined) (env : Env)
    (fabric_yarn : FabricYarn) (jar_descs_mappings : List JarDescsMapping) :
    Except Err (CombinedCombined × Bool × List Event) :=
  let new_yarn := candidateYarn c.version_id c.version_release_time fabric_yarn
  if c.yarn = new_yarn then
    match jarsLoop env c.yarn false c.jars false jar_descs_mappings with
    | .error e => .error e
    | .ok (jars1, dirty, ev) =>
      if dirty then .ok ({ c with jars := sort_dict jars1 }, true, ev)
      else .ok ({ c with jars := jars1 }, false, ev)
  else
    match env.download new_yarn with
    | .error e => .error e
    | .ok _ =>
      match jarsLoop env new_yarn true c.jars false jar_descs_mappings with
      | .error e => .error e
      | .ok (jars1, _, ev) =>
        .ok ({ c with yarn := new_yarn, jars := sort_dict jars1 }, true,
          Event.download new_yarn :: ev)

/-- src/combined.py `CombinedCombined.mappingio` (lines 168-171): invoke the
merge tool once per jar in the jar map, in map order. -/
def mappingioAll (env : Env) (yarn : CombinedYarn) :
    List (String × CombinedJarDesc) → Except Err (List Event)
  | [] => .ok []
  | (_, jar) :: rest =>
    match env.mappingio jar yarn with
    | .error e => .error e
    | .ok _ =>
      match mappingioAll env yarn rest with
      | .error e => .error e
      | .ok ev => .ok (Event.mappingio jar yarn :: ev)

/-- The dict comprehension of src/combined.py lines 238-241: one
`CombinedJarDesc` per description entry, keyed by jar_key. -/
def jarsFromList (ms : List JarDescsMapping) : List (String × CombinedJarDesc) :=
  ms.foldl
    (fun acc m => alistInsert acc m.jar_key (CombinedJarDesc.from_jar_descs_mapping m))
    []

/-- The combined document, src/combined.py `Combined`. -/
structure Combined where
  timestamp : Int
  jar_descs_timestamp : Int
  fabric_timestamp : Int
  combined : List (String × CombinedCombined)
deriving DecidableEq, Repr

/-- src/combined.py `Combined.empty` (`datetime.min` abstracted to 0). -/
def Combined.empty : Combined :=
  { timestamp := 0, jar_descs_timestamp := 0, fabric_timestamp := 0, combined := [] }

/-- The per-version loop of src/combined.py `Combined.update` (lines
219-265): resolve each registry entry, initialize never-seen versions (fetch
the artifact, copy every description entry, run the merge tool for each
jar), and reconcile existing versions via `CombinedCombined.update`. -/
def combinedLoop (env : Env) (jd : JarDescs) :
    List (String × FabricYarn) → List (String × CombinedCombined) → Bool →
      Except Err (List (String × CombinedCombined) × Bool × List Event)
  | [], combined, dirty => .ok (combined, dirty, [])
  | (version_file_id, fabric_yarn) :: rest, combined, dirty =>
    match jd.get_version_id version_file_id with
    | .error e => .error e
    | .ok version_id =>
      match jd.get_version_release_time version_id with
      | .error e => .error e
      | .ok version_release_time =>
        match alistLookup combined version_id with
        | none =>
          let combined_yarn :=
            CombinedYarn.from_fabric_yarn fabric_yarn version_id version_release_time
          match env.download combined_yarn with
          | .error e => .error e
          | .ok _ =>
            match jd.get_jars version_id with
            | .error e => .error e
            | .ok ms =>
              let combined_jars := jarsFromList ms
              let cc : CombinedCombined :=
                { version_id := version_id
                  version_file_id := version_file_id
                  version_release_time := version_release_time
                  yarn := combined_yarn
                  jars := combined_jars }
              match mappingioAll env combined_yarn combined_jars with
              | .error e => .error e
              | .ok ev1 =>
                match combinedLoop env jd rest (alistInsert combined version_id cc) true with
                | .error e => .error e
                | .ok (c2, d2, ev2) =>
                  .ok (c2, d2, Event.download combined_yarn :: (ev1 ++ ev2))
        | some cc =>
          match jd.get_jars version_id with
          | .error e => .error e
          | .ok ms =>
            match cc.update env fabric_yarn ms with
            | .error e => .error e
            | .ok (cc1, d1, ev1) =>
              match combinedLoop env jd rest (alistInsert combined version_id cc1) (dirty || d1) with
              | .error e => .error e
              | .ok (c2, d2, ev2) => .ok (c2, d2, ev1 ++ ev2)

/-- src/combined.py `Combined.update` (lines 205-279), with the loaded
registry and description documents passed in (their `load` calls are file
reads). Short-circuit when both gating timestamps are unchanged; otherwise
run the per-version loop, re-sort the version map by registry order index if
anything changed, and unconditionally advance both gating timestamps. -/
def Combined.update (c : Combined) (env : Env) (fabric : Fabric)
    (jar_descs : JarDescs) : Except Err (Combined × Bool × List Event) :=
  if c.fabric_timestamp = fabric.timestamp ∧ c.jar_descs_timestamp = jar_descs.timestamp then
    .ok (c, false, [])
  else
    match combinedLoop env jar_descs fabric.yarn c.combined false with
    | .error e => .error e
    | .ok (combined1, dirty, ev) =>
      let combined2 :=
        if dirty then
          sort_dict_by
            (fun i => List.indexOf i.2.version_file_id fabric.sorted_version_file_ids)
            combined1
        else combined1
      let c1 :=
        { c with
          combined := combined2
          fabric_timestamp := fabric.timestamp
          jar_descs_timestamp := jar_descs.timestamp }
      .ok (c1, dirty, ev)

/-- The returned dirty flag of a reconcile pass (`none` when the pass
aborted). -/
def rootDirty (r : Except Err (Combined × Bool × List Event)) : Option Bool :=
  match r with
  | .ok (_, d, _) => some d
  | .error _ => none

/-- The event trace of a reconcile pass (empty when the pass aborted). -/
def rootEvents (r : Except Err (Combined × Bool × List Event)) : List Event :=
  match r with
  | .ok (_, _, ev) => ev
  | .error _ => []

/-- The version map produced by a reconcile pass (empty when the pass
aborted). -/
def rootCombined (r : Except Err (Combined × Bool × List Event)) :
    List (String × CombinedCombined) :=
  match r with
  | .ok (c1, _, _) => c1.combined
  | .error _ => []

/-- The returned dirty flag of reconciling one version (`none` on abort). -/
def versionDirty (r : Except Err (CombinedCombined × Bool × List Event)) :
    Option Bool :=
  match r with
  | .ok (_, d, _) => some d
  | .error _ => none

/-- The event trace of reconciling one version (empty on abort). -/
def versionEvents (r : Except Err (CombinedCombined × Bool × List Event)) :
    List Event :=
  match r with
  | .ok (_, _, ev) => ev
  | .error _ => []

/-! src/combined.py `CombinedYarn.download` (lines 102-124), modelled over an
abstract local file pair and network. File contents are abstract strings;
the sha1 and gzip-decompression functions are abstract parameters. -/

/-- Inputs of one `CombinedYarn.download` call: the two local files (if they
exist), the response to the small `.sha1` sidecar `GET` and to the full
payload `GET`, and the hash/decompression functions. -/
structure DlEnv where
  sha1 : String → String
  decompress : String → String
  cacheFile : Option String
  pathFile : Option String
  sidecar : Except Err String
  payload : Except Err String

/-- Outcome of one `CombinedYarn.download` call: the resulting local files
and how many full-payload downloads were issued. -/
structure DlResult where
  cacheFile : Option String
  pathFile : Option String
  payloadFetches : Nat
deriving DecidableEq, Repr

/-- src/combined.py `CombinedYarn.download`: when both local files exist,
fetch only the sidecar hash and compare it with the recomputed hash of the
local compressed file; on a hit do nothing, otherwise issue the full
download, write the compressed payload verbatim and write the decompressed
artifact. -/
def download_model (env : DlEnv) : Except Err DlResult :=
  let hitOrErr : Except Err Bool :=
    match env.cacheFile, env.pathFile with
    | some cb, some _ =>
      match env.sidecar with
      | .ok online_sha1 => .ok (online_sha1 = env.sha1 cb)
      | .error e => .error e
    | _, _ => .ok false
  match hitOrErr with
  | .error e => .error e
  | .ok cache_hit =>
    if cache_hit then
      .ok { cacheFile := env.cacheFile, pathFile := env.pathFile, payloadFetches := 0 }
    else
      match env.payload with
      | .ok content =>
        .ok { cacheFile := some content, pathFile := some (env.decompress content),
              payloadFetches := 1 }
      | .error e => .error e

/-! src/index.py -/

/-- src/index.py `BASE_URL`. -/
def BASE_URL : String := "https://jackassmc.github.io/fabric-yarn-merged-descs"

/-- One public jar row, src/index.py `IndexJar`. -/
structure IndexJar where
  version_id : String
  version_file_id : String
  version_release_time : Int
  yarn_build : Int
  jar_key : String
  path : String
  url : String
deriving DecidableEq, Repr

/-- src/index.py `IndexJar.from_combined_jar`: flatten one `CombinedJarDesc`
into a public row whose path is the jar's output path relative to the
repository directory and whose URL is the fixed base plus that path. -/
def IndexJar.from_combined_jar (combined_jar : CombinedJarDesc) (yarn_build : Int) :
    IndexJar :=
  { version_id := combined_jar.version_id
    version_file_id := combined_jar.version_file_id
    version_release_time := combined_jar.version_release_time
    yarn_build := yarn_build
    jar_key := combined_jar.jar_key
    path := combined_jar.out_path
    url := BASE_URL ++ "/" ++ combined_jar.out_path }

/-- One public version row, src/index.py `IndexVersion`. -/
structure IndexVersion where
  version_id : String
  version_file_id : String
  version_release_time : Int
  yarn_build : Int
  jars : List (String × IndexJar)
deriving DecidableEq, Repr

/-- src/index.py `IndexVersion.from_combined`: copy the version fields and
the yarn build, then flatten every jar of the version in map order. -/
def IndexVersion.from_combined (combined : CombinedCombined) : IndexVersion :=
  { version_id := combined.version_id
    version_file_id := combined.version_file_id
    version_release_time := combined.version_release_time
    yarn_build := combined.yarn.build
    jars := combined.jars.foldl
      (fun acc p => alistInsert acc p.1 (IndexJar.from_combined_jar p.2 combined.yarn.build))
      [] }

/-- The index document, src/index.py `Index`. -/
structure Index where
  timestamp : Int
  versions : List (String × IndexVersion)
deriving DecidableEq, Repr

/-- src/index.py `Index.update` (lines 89-109), with the loaded combined
document passed in: do nothing while the stored timestamp equals the
combined document's; otherwise adopt that timestamp, discard the prior
versions map and rebuild one `IndexVersion` per combined entry in map
order. -/
def Index.update (idx : Index) (combined_root : Combined) : Index × Bool :=
  if idx.timestamp = combined_root.timestamp then (idx, false)
  else
    let versions := combined_root.combined.foldl
      (fun acc p =>
        if (alistLookup acc p.1).isSome then acc
        else alistInsert acc p.1 (IndexVersion.from_combined p.2))
      []
    ({ timestamp := combined_root.timestamp, versions := versions }, true)

/-! src/update.py -/

/-- The three persisted documents (registry, combined, index), each a full
JSON snapshot on disk. -/
structure Docs where
  fabricDoc : Fabric
  combinedDoc : Combined
  indexDoc : Index
deriving DecidableEq, Repr

/-- External inputs of one run of src/update.py `update`: the description
document before and after the submodule pull (or a pull failure), the
registry feed (or a fetch failure), the reconcile effect outcomes, and the
wall-clock times the two `save` calls would stamp. -/
structure PipelineEnv where
  jarDescsPre : JarDescs
  jarDescsPull : Except Err JarDescs
  fabricFetch : Except Err (List FabricYarn)
  download : CombinedYarn → Except Err Unit
  mappingio : CombinedJarDesc → CombinedYarn → Except Err Unit
  fabricSaveTime : Int
  combinedSaveTime : Int

/-- src/update.py `update` (lines 17-40): pull the description submodule,
refresh the registry and save it if dirty, and if either source changed run
the reconciler, saving the combined document and then refreshing and saving
the index only on a dirty reconcile. Returns the documents as persisted when
the run ends, and the error that aborted it (if any). `Fabric.save` and
`Combined.save` stamp the document with the current time; `Index.save`
writes the document unchanged. -/
def update_run (docs : Docs) (penv : PipelineEnv) : Docs × Option Err :=
  match penv.jarDescsPull with
  | .error e => (docs, some e)
  | .ok jd =>
    let new_data0 : Bool := ¬ penv.jarDescsPre.timestamp = jd.timestamp
    match penv.fabricFetch with
    | .error e => (docs, some e)
    | .ok feed =>
      let fst1 := Fabric.update docs.fabricDoc feed
      let docs1 :=
        if fst1.2 then
          { docs with fabricDoc := { fst1.1 with timestamp := penv.fabricSaveTime } }
        else docs
      if new_data0 || fst1.2 then
        match Combined.update docs1.combinedDoc
            { download := penv.download, mappingio := penv.mappingio }
            docs1.fabricDoc jd with
        | .error e => (docs1, some e)
        | .ok (c1, cdirty, _) =>
          if cdirty then
            let docs2 :=
              { docs1 with combinedDoc := { c1 with timestamp := penv.combinedSaveTime } }
            let ist := Index.update docs2.indexDoc docs2.combinedDoc
            let docs3 := if ist.2 then { docs2 with indexDoc := ist.1 } else docs2
            (docs3, none)
          else (docs1, none)
      else (docs1, none)

/-- Decidable equality of `Except` results, so that concrete runs can be
checked by evaluation. -/
instance {ε α : Type} [DecidableEq ε] [DecidableEq α] : DecidableEq (Except ε α)
  | .error e1, .error e2 =>
    if h : e1 = e2 then .isTrue (by rw [h])
    else .isFalse (fun he => h (by injection he))
  | .error _, .ok _ => .isFalse (fun he => Except.noConfusion he)
  | .ok _, .error _ => .isFalse (fun he => Except.noConfusion he)
  | .ok a1, .ok a2 =>
    if h : a1 = a2 then .isTrue (by rw [h])
    else .isFalse (fun he => h (by injection he))

/-! Concrete fixtures used by witnesses and counterexamples. -/

/-- A build-1 registry entry for game version 1.0. -/
def exYarnA : FabricYarn :=
  { version_file_id := "1.0", separator := "+build.", build := 1
    fabric_name := "1.0+build.1" }

/-- A build-2 registry entry for game version 1.0 (an upstream change). -/
def exYarnA2 : FabricYarn :=
  { version_file_id := "1.0", separator := "+build.", build := 2
    fabric_name := "1.0+build.2" }

/-- A build-2 registry entry for game version 1.1. -/
def exYarnB : FabricYarn :=
  { version_file_id := "1.1", separator := "+build.", build := 2
    fabric_name := "1.1+build.2" }

/-- The client description entry of version a1. -/
def exJarA : JarDescsMapping :=
  { version_id := "a1", version_file_id := "1.0", version_release_time := 10
    jar_key := "client", jar_sha1_meta := "h1" }

/-- The client description entry of version a1 with a changed content hash. -/
def exJarA2 : JarDescsMapping :=
  { version_id := "a1", version_file_id := "1.0", version_release_time := 10
    jar_key := "client", jar_sha1_meta := "h1x" }

/-- The server description entry of version a1. -/
def exJarSrv : JarDescsMapping :=
  { version_id := "a1", version_file_id := "1.0", version_release_time := 10
    jar_key := "server", jar_sha1_meta := "hs" }

/-- The client description entry of version b1. -/
def exJarB : JarDescsMapping :=
  { version_id := "b1", version_file_id := "1.1", version_release_time := 20
    jar_key := "client", jar_sha1_meta := "h2" }

/-- A description document covering versions a1 (game 1.0) and b1 (game 1.1). -/
def exJD : JarDescs :=
  { timestamp := 5
    mappings := [("a1", [("client", exJarA)]), ("b1", [("client", exJarB)])] }

/-- An effect environment in which every download and merge succeeds. -/
def exOkEnv : Env :=
  { download := fun _ => .ok (), mappingio := fun _ _ => .ok () }

/-- A registry document holding builds for game versions 1.0 and 1.1. -/
def exFabric : Fabric :=
  { timestamp := 7, yarn := [("1.0", exYarnA), ("1.1", exYarnB)]
    sorted_version_file_ids := ["1.0", "1.1"] }

/-- The stored yarn of version a1, matching `exYarnA`. -/
def exStoredYarnA : CombinedYarn :=
  { version_id := "a1", version_file_id := "1.0", version_release_time := 10
    separator := "+build.", build := 1, fabric_name := "1.0+build.1" }

/-- A stored version a1 holding only the client jar. -/
def exCCA : CombinedCombined :=
  { version_id := "a1", version_file_id := "1.0", version_release_time := 10
    yarn := exStoredYarnA, jars := [("client", exJarA)] }

/-- A stored version a1 holding a client and a server jar. -/
def exCC3 : CombinedCombined :=
  { version_id := "a1", version_file_id := "1.0", version_release_time := 10
    yarn := exStoredYarnA, jars := [("client", exJarA), ("server", exJarSrv)] }

/-- The outcome of one full reconcile run from the empty combined document. -/
def exRun : Combined × Bool × List Event :=
  match Combined.update Combined.empty exOkEnv exFabric exJD with
  | .ok r => r
  | .error _ => (Combined.empty, false, [])

/-- The three documents before the failing pipeline run. -/
def exDocs : Docs :=
  { fabricDoc := { timestamp := 0, yarn := [], sorted_version_file_ids := [] }
    combinedDoc := Combined.empty
    indexDoc := { timestamp := 0, versions := [] } }

/-- A pipeline environment whose registry refresh succeeds with a new entry
but whose description source cannot resolve it, so the combined phase
aborts with NotFound after the registry document was already saved. -/
def exPenvFail : PipelineEnv :=
  { jarDescsPre := { timestamp := 5, mappings := [] }
    jarDescsPull := .ok { timestamp := 5, mappings := [] }
    fabricFetch := .ok [exYarnA]
    download := fun _ => .ok ()
    mappingio := fun _ _ => .ok ()
    fabricSaveTime := 100
    combinedSaveTime := 200 }

/-- The merge-tool invocations recorded in a trace for jars with a given
jar_key. -/
def mergeEventsFor (k : String) (ev : List Event) : List Event :=
  ev.filter (fun e =>
    match e with
    | Event.mappingio jar _ => jar.jar_key == k
    | Event.download _ => false)

/-! Association-list lemmas. -/

theorem alistLookup_insert_self {α β : Type} [DecidableEq α]
    (l : List (α × β)) (k : α) (v : β) :
    alistLookup (alistInsert l k v) k = some v := by
  induction l with
  | nil => simp [alistInsert, alistLookup]
  | cons p rest ih =>
    obtain ⟨k1, v1⟩ := p
    by_cases h : k1 = k
    · subst h
      simp [alistInsert, alistLookup]
    · simp [alistInsert, alistLookup, h, ih]

theorem alistLookup_insert_ne {α β : Type} [DecidableEq α]
    (l : List (α × β)) {k k' : α} (v : β) (h : ¬ k = k') :
    alistLookup (alistInsert l k v) k' = alistLookup l k' := by
  induction l with
  | nil => simp [alistInsert, alistLookup, h]
  | cons p rest ih =>
    obtain ⟨k1, v1⟩ := p
    by_cases h1 : k1 = k
    · subst h1
      simp [alistInsert, alistLookup, h]
    · simp [alistInsert, alistLookup, h1, ih]

theorem mem_of_alistLookup_eq_some {α β : Type} [DecidableEq α]
    {l : List (α × β)} {k : α} {v : β} (h : alistLookup l k = some v) :
    (k, v) ∈ l := by
  induction l with
  | nil => simp [alistLookup] at h
  | cons p rest ih =>
    obtain ⟨k1, v1⟩ := p
    by_cases h1 : k1 = k
    · subst h1
      simp [alistLookup] at h
      simp [h]
    · simp [alistLookup, h1] at h
      exact List.mem_cons_of_mem _ (ih h)

theorem alistLookup_eq_none_iff {α β : Type} [DecidableEq α]
    (l : List (α × β)) (k : α) :
    alistLookup l k = none ↔ k ∉ l.map Prod.fst := by
  induction l with
  | nil => simp [alistLookup]
  | cons p rest ih =>
    obtain ⟨k1, v1⟩ := p
    by_cases h1 : k1 = k
    · subst h1
      simp [alistLookup]
    · simp [alistLookup, h1, ih, Ne.symm h1]

theorem alistLookup_eq_some_of_mem {α β : Type} [DecidableEq α]
    {l : List (α × β)} (hnd : (l.map Prod.fst).Nodup) {k : α} {v : β}
    (hm : (k, v) ∈ l) : alistLookup l k = some v := by
  induction l with
  | nil => simp at hm
  | cons p rest ih =>
    obtain ⟨k1, v1⟩ := p
    simp at hnd
    rcases List.mem_cons.mp hm with h | h
    · rw [Prod.ext_iff] at h
      obtain ⟨hk, hv⟩ := h
      simp at hk hv
      subst hk
      simp [alistLookup, hv]
    · have hk1 : ¬ k1 = k := by
        intro he
        subst he
        exact hnd.1 v h
      simp [alistLookup, hk1]
      exact ih hnd.2 h

theorem alistLookup_of_perm {α β : Type} [DecidableEq α]
    {l l' : List (α × β)} (hnd : (l.map Prod.fst).Nodup) (hp : l.Perm l')
    (k : α) : alistLookup l k = alistLookup l' k := by
  have hnd' : (l'.map Prod.fst).Nodup := (hp.map Prod.fst).nodup_iff.mp hnd
  cases h : alistLookup l k with
  | none =>
    have hk : k ∉ l.map Prod.fst := (alistLookup_eq_none_iff l k).mp h
    have hk' : k ∉ l'.map Prod.fst := fun hm =>
      hk ((hp.map Prod.fst).mem_iff.mpr hm)
    exact ((alistLookup_eq_none_iff l' k).mpr hk').symm
  | some v =>
    have hm : (k, v) ∈ l' := hp.mem_iff.mp (mem_of_alistLookup_eq_some h)
    exact (alistLookup_eq_some_of_mem hnd' hm).symm

theorem keys_alistInsert_of_mem {α β : Type} [DecidableEq α]
    {l : List (α × β)} {k : α} (v : β) (h : k ∈ l.map Prod.fst) :
    (alistInsert l k v).map Prod.fst = l.map Prod.fst := by
  induction l with
  | nil => simp at h
  | cons p rest ih =>
    obtain ⟨k1, v1⟩ := p
    by_cases h1 : k1 = k
    · subst h1
      simp [alistInsert]
    · simp only [List.map_cons, List.mem_cons] at h
      rcases h with h | h
      · exact absurd h.symm h1
      · simp [alistInsert, h1]
        exact ih h

theorem alistInsert_of_not_mem {α β : Type} [DecidableEq α]
    {l : List (α × β)} {k : α} (v : β) (h : k ∉ l.map Prod.fst) :
    alistInsert l k v = l ++ [(k, v)] := by
  induction l with
  | nil => simp [alistInsert]
  | cons p rest ih =>
    obtain ⟨k1, v1⟩ := p
    simp only [List.map_cons, List.mem_cons] at h
    push_neg at h
    have h1 : ¬ k1 = k := fun he => h.1 he.symm
    simp [alistInsert, h1]
    exact ih h.2

theorem nodup_keys_alistInsert {α β : Type} [DecidableEq α]
    {l : List (α × β)} (hnd : (l.map Prod.fst).Nodup) (k : α) (v : β) :
    ((alistInsert l k v).map Prod.fst).Nodup := by
  by_cases h : k ∈ l.map Prod.fst
  · rw [keys_alistInsert_of_mem v h]
    exact hnd
  · rw [alistInsert_of_not_mem v h]
    rw [List.map_append]
    refine List.Nodup.append hnd (by simp) ?_
    intro a ha hb
    simp at hb
    subst hb
    exact h ha

/-! Sorting lemmas. -/

theorem insertByKey_perm {α β : Type} [LinearOrder β] (keyf : α → β) (x : α)
    (l : List α) : (insertByKey keyf x l).Perm (x :: l) := by
  induction l with
  | nil => simp [insertByKey]
  | cons y ys ih =>
    by_cases h : keyf x ≤ keyf y
    · simp [insertByKey, h]
    · simp only [insertByKey, if_neg h]
      exact (ih.cons y).trans (List.Perm.swap x y ys)

theorem sortByKey_perm {α β : Type} [LinearOrder β] (keyf : α → β)
    (l : List α) : (sortByKey keyf l).Perm l := by
  induction l with
  | nil => simp [sortByKey]
  | cons x xs ih =>
    exact (insertByKey_perm keyf x (sortByKey keyf xs)).trans (ih.cons x)

theorem pairwise_insertByKey {α β : Type} [LinearOrder β] (keyf : α → β)
    (x : α) {l : List α}
    (h : l.Pairwise (fun a b => keyf a ≤ keyf b)) :
    (insertByKey keyf x l).Pairwise (fun a b => keyf a ≤ keyf b) := by
  induction l with
  | nil => simp [insertByKey]
  | cons y ys ih =>
    rcases List.pairwise_cons.mp h with ⟨hy, hys⟩
    by_cases hxy : keyf x ≤ keyf y
    · simp only [insertByKey, if_pos hxy]
      refine List.pairwise_cons.mpr ⟨?_, h⟩
      intro z hz
      rcases List.mem_cons.mp hz with hz | hz
      · subst hz; exact hxy
      · exact le_trans hxy (hy z hz)
    · simp only [insertByKey, if_neg hxy]
      refine List.pairwise_cons.mpr ⟨?_, ih hys⟩
      intro z hz
      have hz' : z ∈ x :: ys := (insertByKey_perm keyf x ys).mem_iff.mp hz
      rcases List.mem_cons.mp hz' with hz' | hz'
      · subst hz'
        exact le_of_lt (lt_of_not_le hxy)
      · exact hy z hz'

theorem pairwise_sortByKey {α β : Type} [LinearOrder β] (keyf : α → β)
    (l : List α) :
    (sortByKey keyf l).Pairwise (fun a b => keyf a ≤ keyf b) := by
  induction l with
  | nil => simp [sortByKey]
  | cons x xs ih => exact pairwise_insertByKey keyf x ih

theorem alistLookup_sortByKey {α β γ : Type} [DecidableEq α] [LinearOrder γ]
    {l : List (α × β)} (hnd : (l.map Prod.fst).Nodup)
    (keyf : α × β → γ) (k : α) :
    alistLookup (sortByKey keyf l) k = alistLookup l k :=
  (alistLookup_of_perm hnd (sortByKey_perm keyf l).symm k).symm

/-! Lemmas about the per-mapping loop of `CombinedCombined.update`. -/

theorem jarsLoop_dirty_true (env : Env) (y : CombinedYarn) (yd : Bool) :
    ∀ (ms : List JarDescsMapping) (jars j : List (String × CombinedJarDesc))
      (d : Bool) (ev : List Event),
      jarsLoop env y yd jars true ms = .ok (j, d, ev) → d = true := by
  intro ms
  induction ms with
  | nil =>
    intro jars j d ev h
    simp only [jarsLoop] at h
    cases h
    rfl
  | cons m rest ih =>
    intro jars j d ev h
    simp only [jarsLoop, Bool.true_or] at h
    split at h
    · split at h
      · exact Except.noConfusion h
      · split at h
        · exact Except.noConfusion h
        · rename_i j2 d2 ev2 hrec
          cases h
          exact ih _ _ _ _ hrec
    · exact ih _ _ _ _ h

theorem jarsLoop_false (env : Env) (y : CombinedYarn) :
    ∀ (ms : List JarDescsMapping) (jars j : List (String × CombinedJarDesc))
      (dacc : Bool) (ev : List Event),
      jarsLoop env y false jars dacc ms = .ok (j, false, ev) →
      j = jars ∧ ev = [] := by
  intro ms
  induction ms with
  | nil =>
    intro jars j dacc ev h
    simp only [jarsLoop] at h
    cases h
    exact ⟨rfl, rfl⟩
  | cons m rest ih =>
    intro jars j dacc ev h
    simp only [jarsLoop, Bool.false_or] at h
    split at h
    · rename_i hcond
      rw [decide_eq_true_eq] at hcond
      split at h
      · exact Except.noConfusion h
      · split at h
        · exact Except.noConfusion h
        · rename_i j2 d2 ev2 hrec
          rw [decide_eq_true hcond, Bool.or_true] at hrec
          have hd2 := jarsLoop_dirty_true env y false rest _ _ _ _ hrec
          injection h with hAB
          injection hAB with h1 h23
          injection h23 with h2 h3
          rw [hd2] at h2
          exact Bool.noConfusion h2
    · rename_i hcond
      rw [Bool.not_eq_true, decide_eq_false_iff_not, not_not] at hcond
      rw [if_neg (not_not_intro hcond), decide_eq_false (not_not_intro hcond),
        Bool.or_false] at h
      exact ih _ _ _ _ h

theorem jarsLoop_clean (env : Env) (y : CombinedYarn) :
    ∀ (ms : List JarDescsMapping) (jars : List (String × CombinedJarDesc))
      (dacc : Bool),
      (∀ m ∈ ms, alistLookup jars m.jar_key = some m) →
      jarsLoop env y false jars dacc ms = .ok (jars, dacc, []) := by
  intro ms
  induction ms with
  | nil =>
    intro jars dacc _
    simp [jarsLoop]
  | cons m rest ih =>
    intro jars dacc hc
    have hm : alistLookup jars m.jar_key =
        some (CombinedJarDesc.from_jar_descs_mapping m) :=
      hc m (List.mem_cons_self m rest)
    simp only [jarsLoop, Bool.false_or]
    rw [if_neg (not_not_intro hm), decide_eq_false (not_not_intro hm),
      Bool.or_false, if_neg (by simp [decide_eq_false (not_not_intro hm)])]
    exact ih jars dacc (fun m2 hm2 => hc m2 (List.mem_cons_of_mem m hm2))

theorem jarsLoop_events_of_yarn_dirty (env : Env) (y : CombinedYarn) :
    ∀ (ms : List JarDescsMapping) (jars j : List (String × CombinedJarDesc))
      (dacc : Bool) (d : Bool) (ev : List Event),
      jarsLoop env y true jars dacc ms = .ok (j, d, ev) →
      ev = ms.map (fun m => Event.mappingio m y) := by
  intro ms
  induction ms with
  | nil =>
    intro jars j dacc d ev h
    simp only [jarsLoop] at h
    cases h
    rfl
  | cons m rest ih =>
    intro jars j dacc d ev h
    simp only [jarsLoop, Bool.true_or] at h
    split at h
    · split at h
      · exact Except.noConfusion h
      · split at h
        · exact Except.noConfusion h
        · rename_i j2 d2 ev2 hrec
          cases h
          simp only [List.map_cons]
          exact congrArg _ (ih _ _ _ _ _ hrec)
    · rename_i hcond
      simp at hcond

theorem jarsLoop_lookup_preserve (env : Env) (y : CombinedYarn) (yd : Bool) :
    ∀ (ms : List JarDescsMapping) (jars j : List (String × CombinedJarDesc))
      (dacc : Bool) (d : Bool) (ev : List Event) (k : String),
      (∀ m ∈ ms, ¬ m.jar_key = k) →
      jarsLoop env y yd jars dacc ms = .ok (j, d, ev) →
      alistLookup j k = alistLookup jars k := by
  intro ms
  induction ms with
  | nil =>
    intro jars j dacc d ev k _ h
    simp only [jarsLoop] at h
    cases h
    rfl
  | cons m rest ih =>
    intro jars j dacc d ev k hk h
    have hk0 : ¬ m.jar_key = k := hk m (List.mem_cons_self m rest)
    have hkr : ∀ m2 ∈ rest, ¬ m2.jar_key = k :=
      fun m2 h2 => hk m2 (List.mem_cons_of_mem m h2)
    have hins : ∀ jars1 : List (String × CombinedJarDesc),
        (jars1 = if ¬ alistLookup jars m.jar_key =
            some (CombinedJarDesc.from_jar_descs_mapping m) then
          alistInsert jars m.jar_key (CombinedJarDesc.from_jar_descs_mapping m)
        else jars) → alistLookup jars1 k = alistLookup jars k := by
      intro jars1 hj
      split at hj
      · rw [hj]
        exact alistLookup_insert_ne jars _ hk0
      · rw [hj]
    simp only [jarsLoop] at h
    split at h
    · split at h
      · exact Except.noConfusion h
      · split at h
        · exact Except.noConfusion h
        · rename_i j2 d2 ev2 hrec
          cases h
          rw [ih _ _ _ _ _ _ hkr hrec]
          exact hins _ rfl
    · rw [ih _ _ _ _ _ _ hkr h]
      exact hins _ rfl

theorem jarsLoop_events_mem (env : Env) (y : CombinedYarn) (yd : Bool) :
    ∀ (ms : List JarDescsMapping) (jars j : List (String × CombinedJarDesc))
      (dacc : Bool) (d : Bool) (ev : List Event),
      jarsLoop env y yd jars dacc ms = .ok (j, d, ev) →
      ∀ e ∈ ev, ∃ m ∈ ms, e = Event.mappingio m y := by
  intro ms
  induction ms with
  | nil =>
    intro jars j dacc d ev h
    simp only [jarsLoop] at h
    cases h
    intro e he
    simp at he
  | cons m rest ih =>
    intro jars j dacc d ev h
    simp only [jarsLoop] at h
    split at h
    · split at h
      · exact Except.noConfusion h
      · split at h
        · exact Except.noConfusion h
        · rename_i j2 d2 ev2 hrec
          cases h
          intro e he
          rcases List.mem_cons.mp he with he | he
          · exact ⟨m, List.mem_cons_self m rest, he⟩
          · obtain ⟨m2, hm2, he2⟩ := ih _ _ _ _ _ hrec e he
            exact ⟨m2, List.mem_cons_of_mem m hm2, he2⟩
    · intro e he
      obtain ⟨m2, hm2, he2⟩ := ih _ _ _ _ _ h e he
      exact ⟨m2, List.mem_cons_of_mem m hm2, he2⟩

theorem jarsLoop_nodup_keys (env : Env) (y : CombinedYarn) (yd : Bool) :
    ∀ (ms : List JarDescsMapping) (jars j : List (String × CombinedJarDesc))
      (dacc : Bool) (d : Bool) (ev : List Event),
      (jars.map Prod.fst).Nodup →
      jarsLoop env y yd jars dacc ms = .ok (j, d, ev) →
      (j.map Prod.fst).Nodup := by
  intro ms
  induction ms with
  | nil =>
    intro jars j dacc d ev hnd h
    simp only [jarsLoop] at h
    cases h
    exact hnd
  | cons m rest ih =>
    intro jars j dacc d ev hnd h
    have hnd1 : ∀ jars1 : List (String × CombinedJarDesc),
        (jars1 = if ¬ alistLookup jars m.jar_key =
            some (CombinedJarDesc.from_jar_descs_mapping m) then
          alistInsert jars m.jar_key (CombinedJarDesc.from_jar_descs_mapping m)
        else jars) → (jars1.map Prod.fst).Nodup := by
      intro jars1 hj
      split at hj
      · rw [hj]
        exact nodup_keys_alistInsert hnd _ _
      · rw [hj]
        exact hnd
    simp only [jarsLoop] at h
    split at h
    · split at h
      · exact Except.noConfusion h
      · split at h
        · exact Except.noConfusion h
        · rename_i j2 d2 ev2 hrec
          cases h
          exact ih _ _ _ _ _ (hnd1 _ rfl) hrec
    · exact ih _ _ _ _ _ (hnd1 _ rfl) h

theorem jarsLoop_one_dirty (env : Env) (y : CombinedYarn) :
    ∀ (l1 : List JarDescsMapping) (jars : List (String × CombinedJarDesc))
      (dacc : Bool) (m0 : JarDescsMapping) (l2 : List JarDescsMapping),
      (∀ m ∈ l1, alistLookup jars m.jar_key = some m) →
      (¬ alistLookup jars m0.jar_key = some m0) →
      env.mappingio m0 y = .ok () →
      (∀ m ∈ l2, alistLookup jars m.jar_key = some m ∧ ¬ m.jar_key = m0.jar_key) →
      jarsLoop env y false jars dacc (l1 ++ m0 :: l2) =
        .ok (alistInsert jars m0.jar_key m0, true, [Event.mappingio m0 y]) := by
  intro l1
  induction l1 with
  | nil =>
    intro jars dacc m0 l2 _ hm0 hio h2
    have hm0' : ¬ alistLookup jars m0.jar_key =
        some (CombinedJarDesc.from_jar_descs_mapping m0) := hm0
    have hio' : env.mappingio (CombinedJarDesc.from_jar_descs_mapping m0) y =
        .ok () := hio
    simp only [List.nil_append, jarsLoop, Bool.false_or]
    rw [if_pos hm0', decide_eq_true hm0']
    simp only [if_true, hio']
    have hclean : ∀ m ∈ l2,
        alistLookup (alistInsert jars m0.jar_key
          (CombinedJarDesc.from_jar_descs_mapping m0)) m.jar_key = some m := by
      intro m hm
      rw [alistLookup_insert_ne jars _ (fun he => (h2 m hm).2 he.symm)]
      exact (h2 m hm).1
    rw [jarsLoop_clean env y l2 _ _ hclean, Bool.or_true]
    rfl
  | cons a l1' ih =>
    intro jars dacc m0 l2 h1 hm0 hio h2
    have ha : alistLookup jars a.jar_key =
        some (CombinedJarDesc.from_jar_descs_mapping a) :=
      h1 a (List.mem_cons_self a l1')
    simp only [List.cons_append, jarsLoop, Bool.false_or]
    rw [if_neg (not_not_intro ha), decide_eq_false (not_not_intro ha),
      Bool.or_false, if_neg (by simp [decide_eq_false (not_not_intro ha)])]
    exact ih jars dacc m0 l2 (fun m hm => h1 m (List.mem_cons_of_mem a hm)) hm0 hio h2

/-! Lemmas about `CombinedCombined.update`. -/

theorem ccupdate_false_events (c : CombinedCombined) (env : Env)
    (fy : FabricYarn) (ms : List JarDescsMapping) (cc1 : CombinedCombined)
    (ev : List Event)
    (h : CombinedCombined.update c env fy ms = .ok (cc1, false, ev)) :
    ev = [] ∧ cc1 = c := by
  simp only [CombinedCombined.update] at h
  split at h
  · split at h
    · exact Except.noConfusion h
    · rename_i jars1 dirty ev1 hloop
      split at h
      · injection h with hAB
        injection hAB with h1 h23
        injection h23 with h2 h3
        exact Bool.noConfusion h2
      · rename_i hdirty
        injection h with hAB
        injection hAB with h1 h23
        injection h23 with h2 h3
        rw [Bool.not_eq_true] at hdirty
        rw [hdirty] at hloop
        obtain ⟨hj, hev⟩ := jarsLoop_false env c.yarn ms c.jars jars1 false ev1 hloop
        subst h1 h3
        refine ⟨hev, ?_⟩
        rw [hj]
  · split at h
    · exact Except.noConfusion h
    · split at h
      · exact Except.noConfusion h
      · rename_i j2 d2 ev2 hrec
        injection h with hAB
        injection hAB with h1 h23
        injection h23 with h2 h3
        exact Bool.noConfusion h2

/-! Lemmas about the per-version loop of `Combined.update`. -/

theorem combinedLoop_dirty_true (env : Env) (jd : JarDescs) :
    ∀ (items : List (String × FabricYarn))
      (comb c1 : List (String × CombinedCombined)) (d : Bool) (ev : List Event),
      combinedLoop env jd items comb true = .ok (c1, d, ev) → d = true := by
  intro items
  induction items with
  | nil =>
    intro comb c1 d ev h
    simp only [combinedLoop] at h
    cases h
    rfl
  | cons p rest ih =>
    obtain ⟨version_file_id, fabric_yarn⟩ := p
    intro comb c1 d ev h
    simp only [combinedLoop, Bool.true_or] at h
    split at h
    · exact Except.noConfusion h
    · split at h
      · exact Except.noConfusion h
      · split at h
        · -- new version
          split at h
          · exact Except.noConfusion h
          · split at h
            · exact Except.noConfusion h
            · split at h
              · exact Except.noConfusion h
              · split at h
                · exact Except.noConfusion h
                · rename_i c2 d2 ev2 hrec
                  cases h
                  exact ih _ _ _ _ hrec
        · -- existing version
          split at h
          · exact Except.noConfusion h
          · split at h
            · exact Except.noConfusion h
            · rename_i cc1 d1 ev1 hcc
              split at h
              · exact Except.noConfusion h
              · rename_i c2 d2 ev2 hrec
                cases h
                exact ih _ _ _ _ hrec

theorem combinedLoop_false_events (env : Env) (jd : JarDescs) :
    ∀ (items : List (String × FabricYarn))
      (comb c1 : List (String × CombinedCombined)) (dacc : Bool) (ev : List Event),
      combinedLoop env jd items comb dacc = .ok (c1, false, ev) → ev = [] := by
  intro items
  induction items with
  | nil =>
    intro comb c1 dacc ev h
    simp only [combinedLoop] at h
    cases h
    rfl
  | cons p rest ih =>
    obtain ⟨version_file_id, fabric_yarn⟩ := p
    intro comb c1 dacc ev h
    simp only [combinedLoop] at h
    split at h
    · exact Except.noConfusion h
    · split at h
      · exact Except.noConfusion h
      · split at h
        · -- new version: the recursion runs with accumulator true
          split at h
          · exact Except.noConfusion h
          · split at h
            · exact Except.noConfusion h
            · split at h
              · exact Except.noConfusion h
              · split at h
                · exact Except.noConfusion h
                · rename_i c2 d2 ev2 hrec
                  have hd2 := combinedLoop_dirty_true env jd rest _ _ _ _ hrec
                  injection h with hAB
                  injection hAB with h1 h23
                  injection h23 with h2 h3
                  rw [hd2] at h2
                  exact Bool.noConfusion h2
        · -- existing version
          split at h
          · exact Except.noConfusion h
          · split at h
            · exact Except.noConfusion h
            · rename_i cc1 d1 ev1 hcc
              split at h
              · exact Except.noConfusion h
              · rename_i c2 d2 ev2 hrec
                injection h with hAB
                injection hAB with h1 h23
                injection h23 with h2 h3
                subst h3
                cases d1 with
                | true =>
                  rw [Bool.or_true] at hrec
                  have hd2 := combinedLoop_dirty_true env jd rest _ _ _ _ hrec
                  rw [hd2] at h2
                  exact Bool.noConfusion h2
                | false =>
                  obtain ⟨hev1, _⟩ := ccupdate_false_events _ env fabric_yarn _ cc1 ev1 hcc
                  subst h2
                  rw [hev1, ih _ _ _ _ hrec]
                  rfl

theorem combined_update_false_events (c : Combined) (env : Env) (f : Fabric)
    (j : JarDescs) (c1 : Combined) (ev : List Event)
    (h : Combined.update c env f j = .ok (c1, false, ev)) : ev = [] := by
  simp only [Combined.update] at h
  split at h
  · cases h
    rfl
  · split at h
    · exact Except.noConfusion h
    · rename_i comb1 dirty ev0 hloop
      injection h with hAB
      injection hAB with h1 h23
      injection h23 with h2 h3
      subst h2 h3
      exact combinedLoop_false_events env j f.yarn c.combined comb1 false _ hloop

theorem combined_update_timestamps (c : Combined) (env : Env) (f : Fabric)
    (j : JarDescs) (c1 : Combined) (d : Bool) (ev : List Event)
    (h : Combined.update c env f j = .ok (c1, d, ev)) :
    c1.fabric_timestamp = f.timestamp ∧ c1.jar_descs_timestamp = j.timestamp := by
  simp only [Combined.update] at h
  split at h
  · rename_i hcond
    cases h
    exact hcond
  · split at h
    · exact Except.noConfusion h
    · rename_i comb1 dirty ev0 hloop
      injection h with hAB
      injection hAB with h1 h23
      subst h1
      exact ⟨rfl, rfl⟩

/-! Lemmas about `Fabric.update`. -/

theorem fabricStep_lookup_self (st : Fabric × Bool) (fy : FabricYarn) :
    alistLookup (fabricStep st fy).1.yarn fy.version_file_id =
      match alistLookup st.1.yarn fy.version_file_id with
      | none => some fy
      | some e => if ¬ fy = e ∧ e.build < fy.build then some fy else some e := by
  simp only [fabricStep]
  cases hl : alistLookup st.1.yarn fy.version_file_id with
  | none => simp [alistLookup_insert_self]
  | some e =>
    by_cases hc : ¬ fy = e ∧ e.build < fy.build
    · simp [hc, alistLookup_insert_self]
    · simp [hc, hl]

theorem fabricStep_lookup_other (st : Fabric × Bool) (fy : FabricYarn)
    (X : String) (hne : ¬ fy.version_file_id = X) :
    alistLookup (fabricStep st fy).1.yarn X = alistLookup st.1.yarn X := by
  simp only [fabricStep]
  cases hl : alistLookup st.1.yarn fy.version_file_id with
  | none => simp [alistLookup_insert_ne _ _ hne]
  | some e =>
    by_cases hc : ¬ fy = e ∧ e.build < fy.build
    · simp [hc, alistLookup_insert_ne _ _ hne]
    · simp [hc]

theorem fabricStep_nodup (st : Fabric × Bool) (fy : FabricYarn)
    (hnd : (st.1.yarn.map Prod.fst).Nodup) :
    ((fabricStep st fy).1.yarn.map Prod.fst).Nodup := by
  simp only [fabricStep]
  cases hl : alistLookup st.1.yarn fy.version_file_id with
  | none => simpa using nodup_keys_alistInsert hnd fy.version_file_id fy
  | some e =>
    by_cases hc : ¬ fy = e ∧ e.build < fy.build
    · simpa [hc] using nodup_keys_alistInsert hnd fy.version_file_id fy
    · simpa [hc] using hnd

theorem fabricFold_nodup :
    ∀ (feed : List FabricYarn) (st : Fabric × Bool),
      (st.1.yarn.map Prod.fst).Nodup →
      ((feed.foldl fabricStep st).1.yarn.map Prod.fst).Nodup := by
  intro feed
  induction feed with
  | nil => intro st hnd; exact hnd
  | cons g rest ih =>
    intro st hnd
    exact ih (fabricStep st g) (fabricStep_nodup st g hnd)

theorem fabricFold_lookup_none (X : String) :
    ∀ (feed : List FabricYarn) (st : Fabric × Bool),
      feed.filter (fun g => g.version_file_id == X) = [] →
      alistLookup (feed.foldl fabricStep st).1.yarn X =
        alistLookup st.1.yarn X := by
  intro feed
  induction feed with
  | nil => intro st _; rfl
  | cons g rest ih =>
    intro st hf
    have hall := List.filter_eq_nil_iff.mp hf
    have hg : ¬ g.version_file_id = X := fun he =>
      hall g (List.mem_cons_self g rest) (by simp [he])
    have hf' : rest.filter (fun g => g.version_file_id == X) = [] :=
      List.filter_eq_nil_iff.mpr (fun a ha => hall a (List.mem_cons_of_mem g ha))
    simp only [List.foldl_cons]
    rw [ih (fabricStep st g) hf']
    exact fabricStep_lookup_other st g X hg

theorem fabricFold_lookup (X : String) (fy0 : FabricYarn) :
    ∀ (feed : List FabricYarn) (st : Fabric × Bool),
      feed.filter (fun g => g.version_file_id == X) = [fy0] →
      alistLookup (feed.foldl fabricStep st).1.yarn X =
        match alistLookup st.1.yarn X with
        | none => some fy0
        | some e => if ¬ fy0 = e ∧ e.build < fy0.build then some fy0 else some e := by
  intro feed
  induction feed with
  | nil => intro st hf; simp [List.filter] at hf
  | cons g rest ih =>
    intro st hf
    by_cases hg : g.version_file_id = X
    · have hpg : (g.version_file_id == X) = true := by simp [hg]
      rw [List.filter_cons, hpg, if_pos rfl] at hf
      injection hf with h1 h2
      subst h1
      simp only [List.foldl_cons]
      rw [fabricFold_lookup_none X rest (fabricStep st g) h2]
      rw [← hg]
      exact fabricStep_lookup_self st g
    · have hpg : (g.version_file_id == X) = false := by simp [hg]
      rw [List.filter_cons, hpg, if_neg (by simp)] at hf
      simp only [List.foldl_cons]
      rw [ih (fabricStep st g) hf, fabricStep_lookup_other st g X hg]

theorem fabric_update_lookup (f : Fabric) (feed : List FabricYarn) (X : String)
    (fy0 : FabricYarn) (hnd : (f.yarn.map Prod.fst).Nodup)
    (hfeed : feed.filter (fun g => g.version_file_id == X) = [fy0]) :
    alistLookup (Fabric.update f feed).1.yarn X =
      match alistLookup f.yarn X with
      | none => some fy0
      | some e => if ¬ fy0 = e ∧ e.build < fy0.build then some fy0 else some e := by
  have hfold := fabricFold_lookup X fy0 feed (f, false) hfeed
  have hnd2 : (((feed.foldl fabricStep (f, false)).1.yarn).map Prod.fst).Nodup :=
    fabricFold_nodup feed (f, false) hnd
  simp only [Fabric.update]
  split
  · rw [sort_dict_by, alistLookup_sortByKey hnd2]
    exact hfold
  · exact hfold

/-! Lemmas about `Index.update`. -/

theorem indexFold_eq_map :
    ∀ (l : List (String × CombinedCombined)) (acc : List (String × IndexVersion)),
      (acc.map Prod.fst ++ l.map Prod.fst).Nodup →
      l.foldl
        (fun acc p =>
          if (alistLookup acc p.1).isSome then acc
          else alistInsert acc p.1 (IndexVersion.from_combined p.2))
        acc =
      acc ++ l.map (fun p => (p.1, IndexVersion.from_combined p.2)) := by
  intro l
  induction l with
  | nil =>
    intro acc _
    simp
  | cons p rest ih =>
    intro acc hnd
    have hknotin : p.1 ∉ acc.map Prod.fst := by
      intro hmem
      have hd := List.disjoint_of_nodup_append hnd
      exact hd hmem (by simp)
    have hnone : alistLookup acc p.1 = none :=
      (alistLookup_eq_none_iff acc p.1).mpr hknotin
    simp only [List.foldl_cons, hnone, Option.isSome_none, Bool.false_eq_true,
      if_false]
    rw [alistInsert_of_not_mem _ hknotin]
    have hnd2 : ((acc ++ [(p.1, IndexVersion.from_combined p.2)]).map Prod.fst ++
        rest.map Prod.fst).Nodup := by
      rw [List.map_append]
      simp only [List.map_cons, List.map_nil, List.append_assoc, List.singleton_append]
      simpa using hnd
    rw [ih _ hnd2]
    simp

/-! Lemmas about absent keys in `CombinedCombined.update` (append-only jar
map). -/

theorem ccupdate_preserve (c : CombinedCombined) (env : Env) (fy : FabricYarn)
    (ms : List JarDescsMapping) (k : String) (v : CombinedJarDesc)
    (cc1 : CombinedCombined) (d : Bool) (ev : List Event)
    (hnd : (c.jars.map Prod.fst).Nodup)
    (hv : alistLookup c.jars k = some v)
    (hk : ∀ m ∈ ms, ¬ m.jar_key = k)
    (h : CombinedCombined.update c env fy ms = .ok (cc1, d, ev)) :
    alistLookup cc1.jars k = some v ∧
      ∀ jar y, Event.mappingio jar y ∈ ev → ¬ jar.jar_key = k := by
  have hevk : ∀ (y0 : CombinedYarn) (ev0 : List Event),
      (∀ e ∈ ev0, ∃ m ∈ ms, e = Event.mappingio m y0) →
      ∀ jar y, Event.mappingio jar y ∈ ev0 → ¬ jar.jar_key = k := by
    intro y0 ev0 hall jar y hmem
    obtain ⟨m, hm, heq⟩ := hall _ hmem
    injection heq with h1 h2
    subst h1
    exact hk _ hm
  simp only [CombinedCombined.update] at h
  split at h
  · split at h
    · exact Except.noConfusion h
    · rename_i jars1 dirty ev1 hloop
      have hl : alistLookup jars1 k = some v := by
        rw [jarsLoop_lookup_preserve env c.yarn false ms c.jars jars1 false dirty
          ev1 k hk hloop]
        exact hv
      have hnd1 : (jars1.map Prod.fst).Nodup :=
        jarsLoop_nodup_keys env c.yarn false ms c.jars jars1 false dirty ev1 hnd hloop
      have hevents := jarsLoop_events_mem env c.yarn false ms c.jars jars1 false
        dirty ev1 hloop
      split at h
      · cases h
        refine ⟨?_, hevk c.yarn _ hevents⟩
        simp only [sort_dict]
        rw [alistLookup_sortByKey hnd1]
        exact hl
      · cases h
        exact ⟨hl, hevk c.yarn _ hevents⟩
  · split at h
    · exact Except.noConfusion h
    · split at h
      · exact Except.noConfusion h
      · rename_i jars1 d2 ev2 hrec
        cases h
        have hl : alistLookup jars1 k = some v := by
          rw [jarsLoop_lookup_preserve env _ true ms c.jars jars1 false d2
            ev2 k hk hrec]
          exact hv
        have hnd1 : (jars1.map Prod.fst).Nodup :=
          jarsLoop_nodup_keys env _ true ms c.jars jars1 false d2 ev2 hnd hrec
        have hevents := jarsLoop_events_mem env _ true ms c.jars jars1 false d2
          ev2 hrec
        constructor
        · simp only [sort_dict]
          rw [alistLookup_sortByKey hnd1]
          exact hl
        · intro jar y hmem
          rcases List.mem_cons.mp hmem with hmem | hmem
          · exact Event.noConfusion hmem
          · exact hevk _ ev2 hevents jar y hmem

/-! The claims. -/

/-- C1, counterexample to the claim as stated: in this run the description
pull succeeds unchanged, the registry refresh succeeds with a new entry and
the registry document is saved, and then the combined phase aborts with a
NotFound resolution failure — a fatal error occurred during the run, yet the
registry document was rewritten. -/
theorem claim1_counterexample :
    (update_run exDocs exPenvFail).2 = some Err.notFound ∧
    ¬ (update_run exDocs exPenvFail).1.fabricDoc = exDocs.fabricDoc := by
  decide

/-- C1, amended: if a fatal error aborts an update run, the combined and
index documents are left exactly as they were before the run; the registry
document, however, may already have been rewritten, because a successful
dirty registry refresh saves it before the combined phase runs. -/
theorem claim1_theorem (docs : Docs) (penv : PipelineEnv) (e : Err)
    (h : (update_run docs penv).2 = some e) :
    (update_run docs penv).1.combinedDoc = docs.combinedDoc ∧
    (update_run docs penv).1.indexDoc = docs.indexDoc := by
  rcases hrun : update_run docs penv with ⟨docs2, st⟩
  rw [hrun] at h
  dsimp only at h ⊢
  simp only [update_run] at hrun
  split at hrun
  · injection hrun with hd hs
    subst hd
    exact ⟨rfl, rfl⟩
  · split at hrun
    · injection hrun with hd hs
      subst hd
      exact ⟨rfl, rfl⟩
    · split at hrun
      · split at hrun
        · injection hrun with hd hs
          subst hd
          split
          · exact ⟨rfl, rfl⟩
          · exact ⟨rfl, rfl⟩
        · split at hrun
          · injection hrun with hd hs
            subst hs
            exact Option.noConfusion h
          · injection hrun with hd hs
            subst hs
            exact Option.noConfusion h
      · injection hrun with hd hs
        subst hs
        exact Option.noConfusion h

/-- C1 witness: the amended theorem applied to the concrete failing run. -/
theorem claim1_witness :
    (update_run exDocs exPenvFail).1.combinedDoc = exDocs.combinedDoc ∧
    (update_run exDocs exPenvFail).1.indexDoc = exDocs.indexDoc :=
  claim1_theorem exDocs exPenvFail Err.notFound (by decide)

/-- C2, counterexample to the claim as stated: version a1 stores the client
jar and its candidate yarn differs from the stored one, but the description
source's current entry list for the version is empty, so the successful
reconcile of the version invokes the merge tool zero times — not once for
the stored jar. -/
theorem claim2_counterexample :
    ¬ exCCA.yarn = candidateYarn exCCA.version_id exCCA.version_release_time exYarnA2 ∧
    alistLookup exCCA.jars "client" = some exJarA ∧
    CombinedCombined.update exCCA exOkEnv exYarnA2 [] =
      .ok ({ exCCA with
              yarn := candidateYarn exCCA.version_id exCCA.version_release_time exYarnA2 },
        true,
        [Event.download (candidateYarn exCCA.version_id exCCA.version_release_time exYarnA2)]) := by
  decide

/-- C2, amended: when reconciling an existing version whose candidate yarn
differs by full-field equality from the stored one, the successful pass
reports dirty and its trace is exactly one download of the new yarn followed
by one merge-tool invocation per entry of the description source's current
entry list for that version — including entries whose stored jars are
unchanged; stored jars absent from the current entry list get no
invocation. -/
theorem claim2_theorem (c : CombinedCombined) (env : Env) (fy : FabricYarn)
    (ms : List JarDescsMapping) (cc1 : CombinedCombined) (d : Bool)
    (ev : List Event)
    (hne : ¬ c.yarn = candidateYarn c.version_id c.version_release_time fy)
    (h : CombinedCombined.update c env fy ms = .ok (cc1, d, ev)) :
    d = true ∧
    ev = Event.download (candidateYarn c.version_id c.version_release_time fy) ::
      ms.map (fun m =>
        Event.mappingio m (candidateYarn c.version_id c.version_release_time fy)) := by
  simp only [CombinedCombined.update] at h
  rw [if_neg hne] at h
  split at h
  · exact Except.noConfusion h
  · split at h
    · exact Except.noConfusion h
    · rename_i j2 d2 ev2 hrec
      cases h
      exact ⟨rfl, congrArg _ (jarsLoop_events_of_yarn_dirty env _ ms c.jars j2
        false d2 ev2 hrec)⟩

/-- C2 witness: with one current entry (the unchanged client jar) and a
changed yarn, the trace is the download followed by exactly one merge. -/
theorem claim2_witness :
    (match CombinedCombined.update exCCA exOkEnv exYarnA2 [exJarA] with
      | .ok r => r
      | .error _ => (exCCA, false, [])).2.1 = true ∧
    (match CombinedCombined.update exCCA exOkEnv exYarnA2 [exJarA] with
      | .ok r => r
      | .error _ => (exCCA, false, [])).2.2 =
      Event.download (candidateYarn exCCA.version_id exCCA.version_release_time exYarnA2) ::
        [exJarA].map (fun m =>
          Event.mappingio m (candidateYarn exCCA.version_id exCCA.version_release_time exYarnA2)) :=
  claim2_theorem exCCA exOkEnv exYarnA2 [exJarA] _ _ _ (by decide) rfl

/-- C3: when the candidate yarn equals the stored one and exactly one
current description entry differs from (or is missing in) the stored jar
map, the pass stores that one jar, reports dirty, and its whole trace is a
single merge-tool invocation for that jar — no download of the yarn
artifact and no other jar regenerated. -/
theorem claim3_theorem (c : CombinedCombined) (env : Env) (fy : FabricYarn)
    (l1 l2 : List JarDescsMapping) (m0 : JarDescsMapping)
    (hyarn : c.yarn = candidateYarn c.version_id c.version_release_time fy)
    (h1 : ∀ m ∈ l1, alistLookup c.jars m.jar_key = some m)
    (hm0 : ¬ alistLookup c.jars m0.jar_key = some m0)
    (hio : env.mappingio m0 c.yarn = .ok ())
    (h2 : ∀ m ∈ l2, alistLookup c.jars m.jar_key = some m ∧ ¬ m.jar_key = m0.jar_key) :
    CombinedCombined.update c env fy (l1 ++ m0 :: l2) =
      .ok ({ c with jars := sort_dict (alistInsert c.jars m0.jar_key m0) }, true,
        [Event.mappingio m0 c.yarn]) := by
  simp only [CombinedCombined.update]
  rw [if_pos hyarn, jarsLoop_one_dirty env c.yarn l1 c.jars false m0 l2 h1 hm0 hio h2]
  rfl

/-- C3 witness: version a1 stores client and server jars; only the client
entry changed, so exactly the client jar is merged and the yarn is not
downloaded. -/
theorem claim3_witness :
    CombinedCombined.update exCC3 exOkEnv exYarnA [exJarA2, exJarSrv] =
      .ok ({ exCC3 with jars := sort_dict (alistInsert exCC3.jars "client" exJarA2) },
        true, [Event.mappingio exJarA2 exCC3.yarn]) :=
  claim3_theorem exCC3 exOkEnv exYarnA [] [exJarSrv] exJarA2 (by decide)
    (by decide) (by decide) rfl (by decide)

/-- C4: for a version_file_id X whose stored entry is e, a refresh whose
feed carries exactly one entry for X replaces the stored entry with the
fetched one if and only if the fetched entry differs from e in at least one
field and its build is strictly greater; otherwise the stored entry is kept.
A version_file_id not yet stored is stored unconditionally. -/
theorem claim4_theorem (f : Fabric) (feed : List FabricYarn) (X : String)
    (fy0 : FabricYarn) (hnd : (f.yarn.map Prod.fst).Nodup)
    (hfeed : feed.filter (fun g => g.version_file_id == X) = [fy0]) :
    alistLookup (Fabric.update f feed).1.yarn X =
      match alistLookup f.yarn X with
      | none => some fy0
      | some e => if ¬ fy0 = e ∧ e.build < fy0.build then some fy0 else some e :=
  fabric_update_lookup f feed X fy0 hnd hfeed

/-- C4 witness: the stored build-1 entry for game 1.0 is replaced by a
differing build-2 entry; the build-2 entry for a fresh id would be stored
unconditionally (the match reduces on the concrete store). -/
theorem claim4_witness :
    alistLookup (Fabric.update exFabric [exYarnA2]).1.yarn "1.0" = some exYarnA2 := by
  rw [claim4_theorem exFabric [exYarnA2] "1.0" exYarnA2 (by decide) (by decide)]
  decide

/-- C5: after any reconcile pass that reports a structural change
(dirty = true), the combined document's version map is sorted by the index
of each version's version_file_id in the registry's discovery-order list —
iteration follows registry order regardless of the order versions were
inserted during the pass. -/
theorem claim5_theorem (c : Combined) (env : Env) (f : Fabric) (j : JarDescs)
    (c1 : Combined) (ev : List Event)
    (h : Combined.update c env f j = .ok (c1, true, ev)) :
    c1.combined.Pairwise (fun a b =>
      List.indexOf a.2.version_file_id f.sorted_version_file_ids ≤
      List.indexOf b.2.version_file_id f.sorted_version_file_ids) := by
  simp only [Combined.update] at h
  split at h
  · injection h with hAB
    injection hAB with h1 h23
    injection h23 with h2 h3
    exact Bool.noConfusion h2
  · split at h
    · exact Except.noConfusion h
    · rename_i comb1 dirty ev0 hloop
      injection h with hAB
      injection hAB with h1 h23
      injection h23 with h2 h3
      subst h2
      subst h1
      simp only [if_pos rfl]
      exact pairwise_sortByKey _ comb1

/-- C5 witness: the concrete dirty run from the empty document yields a map
sorted by registry order. -/
theorem claim5_witness :
    exRun.1.combined.Pairwise (fun a b =>
      List.indexOf a.2.version_file_id exFabric.sorted_version_file_ids ≤
      List.indexOf b.2.version_file_id exFabric.sorted_version_file_ids) :=
  claim5_theorem Combined.empty exOkEnv exFabric exJD exRun.1 exRun.2.2 rfl

/-- C6: when the stored fabric_timestamp equals the registry document's
timestamp and the stored jar_descs_timestamp equals the description
document's timestamp, reconcile returns false, leaves the whole combined
document unchanged, and performs no artifact fetch and no merge
invocation. -/
theorem claim6_theorem (c : Combined) (env : Env) (f : Fabric) (j : JarDescs)
    (h1 : c.fabric_timestamp = f.timestamp)
    (h2 : c.jar_descs_timestamp = j.timestamp) :
    Combined.update c env f j = .ok (c, false, []) := by
  simp only [Combined.update]
  rw [if_pos ⟨h1, h2⟩]

/-- C6 witness: a combined document whose gating timestamps match the two
sources short-circuits. -/
theorem claim6_witness :
    Combined.update
      { timestamp := 1, jar_descs_timestamp := 5, fabric_timestamp := 7
        combined := [] } exOkEnv exFabric exJD =
      .ok ({ timestamp := 1, jar_descs_timestamp := 5, fabric_timestamp := 7
             combined := [] }, false, []) :=
  claim6_theorem _ exOkEnv exFabric exJD rfl rfl

/-- C7: after a successful reconcile pass (persisting the result, stamped
with the save time, only when it was dirty), a second pass against the
unchanged registry and description documents reports dirty = false and
performs no download and no merge — so no document is rewritten. This holds
because every non-short-circuited pass advances both gating timestamps to
the observed source values, even when it reports dirty = false. -/
theorem claim7_theorem (c : Combined) (env : Env) (f : Fabric) (j : JarDescs)
    (c1 : Combined) (d : Bool) (ev : List Event) (t : Int)
    (h : Combined.update c env f j = .ok (c1, d, ev)) :
    rootDirty (Combined.update
      (if d then { c1 with timestamp := t } else c) env f j) = some false ∧
    rootEvents (Combined.update
      (if d then { c1 with timestamp := t } else c) env f j) = [] := by
  cases d with
  | true =>
    rw [if_pos rfl]
    have hts := combined_update_timestamps c env f j c1 true ev h
    have hrun2 : Combined.update { c1 with timestamp := t } env f j =
        .ok ({ c1 with timestamp := t }, false, []) := by
      simp only [Combined.update]
      rw [if_pos (by exact ⟨hts.1, hts.2⟩)]
    rw [hrun2]
    exact ⟨rfl, rfl⟩
  | false =>
    rw [if_neg (by simp)]
    have hev := combined_update_false_events c env f j c1 ev h
    subst hev
    rw [h]
    exact ⟨rfl, rfl⟩

/-- C7 witness: rerunning after the concrete dirty run short-circuits with
no effects. -/
theorem claim7_witness :
    rootDirty (Combined.update
      (if exRun.2.1 then { exRun.1 with timestamp := 99 } else Combined.empty)
      exOkEnv exFabric exJD) = some false ∧
    rootEvents (Combined.update
      (if exRun.2.1 then { exRun.1 with timestamp := 99 } else Combined.empty)
      exOkEnv exFabric exJD) = [] :=
  claim7_theorem Combined.empty exOkEnv exFabric exJD exRun.1 exRun.2.1
    exRun.2.2 99 rfl

/-- C8: the artifact fetch issues no full-payload download when both local
files exist and the remote sidecar hash equals the sha1 recomputed over the
local compressed file (and then leaves both files unchanged); it issues
exactly one full download — writing the compressed payload verbatim and the
decompressed artifact — when either local file is missing or the hashes
differ. -/
theorem claim8_theorem (env : DlEnv) :
    (∀ cb pf, env.cacheFile = some cb → env.pathFile = some pf →
      env.sidecar = .ok (env.sha1 cb) →
      download_model env =
        .ok { cacheFile := some cb, pathFile := some pf, payloadFetches := 0 }) ∧
    (∀ content, env.payload = .ok content →
      (env.cacheFile = none ∨ env.pathFile = none ∨
        ∃ cb h1, env.cacheFile = some cb ∧ env.sidecar = .ok h1 ∧
          ¬ h1 = env.sha1 cb) →
      download_model env =
        .ok { cacheFile := some content
              pathFile := some (env.decompress content)
              payloadFetches := 1 }) := by
  constructor
  · intro cb pf hc hp hs
    simp [download_model, hc, hp, hs]
  · intro content hpay hmiss
    rcases hmiss with hcn | hpn | ⟨cb, h1, hc, hs, hne⟩
    · simp [download_model, hcn, hpay]
    · cases hcf : env.cacheFile with
      | none => simp [download_model, hcf, hpn, hpay]
      | some cb => simp [download_model, hcf, hpn, hpay]
    · cases hpf : env.pathFile with
      | none => simp [download_model, hc, hpf, hpay]
      | some pf => simp [download_model, hc, hpf, hs, hpay, hne]

/-- C8 witness: a concrete cache hit issues no payload fetch and a concrete
hash mismatch issues exactly one. -/
theorem claim8_witness :
    download_model
      { sha1 := fun s => s ++ "#", decompress := fun s => s ++ "!"
        cacheFile := some "blob", pathFile := some "tiny"
        sidecar := .ok "blob#", payload := .ok "new" } =
      .ok { cacheFile := some "blob", pathFile := some "tiny", payloadFetches := 0 } ∧
    download_model
      { sha1 := fun s => s ++ "#", decompress := fun s => s ++ "!"
        cacheFile := some "blob", pathFile := some "tiny"
        sidecar := .ok "other", payload := .ok "new" } =
      .ok { cacheFile := some "new", pathFile := some "new!", payloadFetches := 1 } :=
  ⟨(claim8_theorem _).1 "blob" "tiny" rfl rfl rfl,
    (claim8_theorem _).2 "new" rfl (Or.inr (Or.inr ⟨"blob", "other", rfl, rfl,
      by decide⟩))⟩

/-- C9: the index projector returns false and keeps the prior projection
when its stored timestamp equals the combined document's; otherwise it
discards the prior versions map, rebuilds exactly one IndexVersion per
combined entry in the combined document's order, adopts the combined
document's timestamp, copies yarn_build from each version's yarn, and gives
each jar the fixed base URL plus the jar's relative output path. -/
theorem claim9_theorem (idx : Index) (root : Combined)
    (hnd : (root.combined.map Prod.fst).Nodup) :
    (idx.timestamp = root.timestamp → Index.update idx root = (idx, false)) ∧
    (¬ idx.timestamp = root.timestamp →
      Index.update idx root =
        ({ timestamp := root.timestamp
           versions := root.combined.map
             (fun p => (p.1, IndexVersion.from_combined p.2)) }, true)) ∧
    (∀ cc : CombinedCombined,
      (IndexVersion.from_combined cc).yarn_build = cc.yarn.build) ∧
    (∀ (jar : CombinedJarDesc) (b : Int),
      (IndexJar.from_combined_jar jar b).yarn_build = b ∧
      (IndexJar.from_combined_jar jar b).url =
        BASE_URL ++ "/" ++ CombinedJarDesc.out_path jar) := by
  refine ⟨?_, ?_, ?_, ?_⟩
  · intro he
    simp only [Index.update]
    rw [if_pos he]
  · intro hne
    simp only [Index.update]
    rw [if_neg hne]
    rw [indexFold_eq_map root.combined [] (by simpa using hnd)]
    simp
  · intro cc
    rfl
  · intro jar b
    exact ⟨rfl, rfl⟩

/-- C9 witness: a stale index (old timestamp, one leftover version) is fully
replaced by the projection of the combined document, in its order. -/
theorem claim9_witness :
    Index.update
      { timestamp := 0, versions := [("old", IndexVersion.from_combined exCCA)] }
      { timestamp := 3, jar_descs_timestamp := 5, fabric_timestamp := 7
        combined := [("a1", exCC3)] } =
      ({ timestamp := 3
         versions := [("a1", exCC3)].map
           (fun p => (p.1, IndexVersion.from_combined p.2)) }, true) :=
  (claim9_theorem _ _ (by decide)).2.1 (by decide)

/-- C10: reconciling an existing version never removes a jar: a stored jar
whose jar_key does not occur in the description source's current entry list
keeps its exact stored value, and no merge-tool invocation in the pass's
trace is for that jar_key. -/
theorem claim10_theorem (c : CombinedCombined) (env : Env) (fy : FabricYarn)
    (ms : List JarDescsMapping) (k : String) (v : CombinedJarDesc)
    (cc1 : CombinedCombined) (d : Bool) (ev : List Event)
    (hnd : (c.jars.map Prod.fst).Nodup)
    (hv : alistLookup c.jars k = some v)
    (hk : ¬ k ∈ ms.map (fun m => m.jar_key))
    (h : CombinedCombined.update c env fy ms = .ok (cc1, d, ev)) :
    alistLookup cc1.jars k = some v ∧ mergeEventsFor k ev = [] := by
  have hk2 : ∀ m ∈ ms, ¬ m.jar_key = k := by
    intro m hm he
    exact hk (he ▸ List.mem_map_of_mem (fun m => m.jar_key) hm)
  obtain ⟨hlook, hev⟩ := ccupdate_preserve c env fy ms k v cc1 d ev hnd hv hk2 h
  refine ⟨hlook, ?_⟩
  simp only [mergeEventsFor]
  rw [List.filter_eq_nil_iff]
  intro e he
  cases e with
  | download y => simp
  | mappingio jar y =>
    have hne := hev jar y he
    simp [hne]

/-- C10 witness: with only the client entry current, the stored server jar
of version a1 survives unchanged and no merge runs for it. -/
theorem claim10_witness :
    alistLookup
      (match CombinedCombined.update exCC3 exOkEnv exYarnA [exJarA2] with
        | .ok r => r
        | .error _ => (exCC3, false, [])).1.jars "server" = some exJarSrv ∧
    mergeEventsFor "server"
      (match CombinedCombined.update exCC3 exOkEnv exYarnA [exJarA2] with
        | .ok r => r
        | .error _ => (exCC3, false, [])).2.2 = [] :=
  claim10_theorem exCC3 exOkEnv exYarnA [exJarA2] "server" exJarSrv _ _ _
    (by decide) (by decide) (by decide) rfl
